import Mathlib

/-!
Verification of WebCore's ColorMatrix.h (javafx.web native sources) and of the
WHLSL ScopedSetAdder helper.

Modelling conventions:
* C++ `float` arithmetic is embedded as exact arithmetic in a commutative ring
  (instantiated at `ℚ` for the constexpr factories and at `ℝ` for the
  trigonometric `hueRotateColorMatrix`).  All coefficient formulas are carried
  over literally from the source.
* `ColorMatrix<ColumnCount, RowCount>` stores its coefficients row-major in a
  flat sequence; `at` indexes it as `m_matrix[row * ColumnCount + column]`.
* The imperative loops of `transformedColorComponents` are embedded as
  `List.foldl` over the same index ranges, threading the result vector through
  each `result[row] += ...` update.
* `ColorComponents<float>` is an external collaborator of ColorMatrix.h;
  it is modelled from the spec as a fixed-size vector with indexed get/set
  whose default-constructed value is all zeroes.
* `WTF::HashSet` (external to the repository snapshot) is modelled from the
  spec as a finite set; `add` reports whether the item was new, `remove`
  deletes it.
-/

namespace WebCore

/-- Embedding of `std::clamp(v, lo, hi)`: `(v < lo) ? lo : (hi < v) ? hi : v`. -/
def clamp {α : Type} [LinearOrder α] (v lo hi : α) : α :=
  if v < lo then lo else if hi < v then hi else v

/-- Embedding of `ColorMatrix<ColumnCount, RowCount>`: the row-major flat
coefficient storage `m_matrix`.  The constructor's compile-time arity check
(`sizeof...(Ts) == RowCount * ColumnCount`) corresponds to the underlying list
having length `RowCount * ColumnCount`. -/
structure ColorMatrix (α : Type) (ColumnCount RowCount : ℕ) where
  m_matrix : List α
  deriving DecidableEq

/-- Embedding of `ColorMatrix::at(row, column)`:
`m_matrix[(row * ColumnCount) + column]`. -/
def ColorMatrix.at' {α : Type} [Zero α] {ColumnCount RowCount : ℕ}
    (M : ColorMatrix α ColumnCount RowCount) (row column : ℕ) : α :=
  M.m_matrix.getD (row * ColumnCount + column) 0

/-- Embedding of `operator==` on two `ColorMatrix<ColumnCount, RowCount>`:
iterate all rows and columns and compare the coefficients exactly. -/
def ColorMatrix.beq {α : Type} [Zero α] [DecidableEq α] {ColumnCount RowCount : ℕ}
    (a b : ColorMatrix α ColumnCount RowCount) : Bool :=
  (List.range RowCount).all fun row =>
    (List.range ColumnCount).all fun column =>
      decide (a.at' row column = b.at' row column)

/-- Embedding of `operator!=`: `!(a == b)`. -/
def ColorMatrix.bne {α : Type} [Zero α] [DecidableEq α] {ColumnCount RowCount : ℕ}
    (a b : ColorMatrix α ColumnCount RowCount) : Bool :=
  !(ColorMatrix.beq a b)

/-- Modelled from the spec: `ColorComponents<T>` (external to ColorMatrix.h),
a fixed-size numeric vector with a compile-time size and indexed get/set. -/
structure ColorComponents (α : Type) (Size : ℕ) where
  components : List α
  deriving DecidableEq

/-- Modelled from the spec: indexed read `v[i]` of a `ColorComponents` vector
(out-of-range reads never happen in the embedded loops; they default to 0). -/
def ColorComponents.get {α : Type} [Zero α] {Size : ℕ}
    (v : ColorComponents α Size) (i : ℕ) : α :=
  v.components.getD i 0

/-- Modelled from the spec: indexed write `v[i] = x` of a `ColorComponents`
vector. -/
def ColorComponents.set {α : Type} {Size : ℕ}
    (v : ColorComponents α Size) (i : ℕ) (x : α) : ColorComponents α Size :=
  ⟨v.components.set i x⟩

/-- Embedding of `ColorMatrix::transformedColorComponents(inputVector)`.
`result` starts as a default-constructed (all-zero) vector; the row loop
accumulates `result[row] += at(row, column) * inputVector[column]` over the
first `min(ColumnCount, Size)` columns, adds `at(row, additionalColumn)` for
columns beyond `Size` when `ColumnCount > Size`, and finally copies
`inputVector[additionalRow]` for rows in `[RowCount, Size)` when
`Size > RowCount`.  The `static_assert(Size >= RowCount)` is carried as a
hypothesis of the theorems that rely on it. -/
def ColorMatrix.transformedColorComponents {α : Type} [CommRing α]
    {ColumnCount RowCount Size : ℕ} (M : ColorMatrix α ColumnCount RowCount)
    (inputVector : ColorComponents α Size) : ColorComponents α Size :=
  let result : ColorComponents α Size := ⟨List.replicate Size 0⟩
  let result := (List.range RowCount).foldl (fun result row =>
    if ColumnCount ≤ Size then
      (List.range ColumnCount).foldl (fun result column =>
        result.set row (result.get row + M.at' row column * inputVector.get column)) result
    else
      (List.range' Size (ColumnCount - Size)).foldl (fun result additionalColumn =>
        result.set row (result.get row + M.at' row additionalColumn))
        ((List.range Size).foldl (fun result column =>
          result.set row (result.get row + M.at' row column * inputVector.get column)) result)) result
  if RowCount < Size then
    (List.range' RowCount (Size - RowCount)).foldl (fun result additionalRow =>
      result.set additionalRow (inputVector.get additionalRow)) result
  else
    result

/-- Closed form of the value `transformedColorComponents` computes for one
output row (proof-side helper, not part of the embedding). -/
def ColorMatrix.rowValue {α : Type} [CommRing α] {ColumnCount RowCount Size : ℕ}
    (M : ColorMatrix α ColumnCount RowCount) (inputVector : ColorComponents α Size)
    (row : ℕ) : α :=
  if ColumnCount ≤ Size then
    ((List.range ColumnCount).map fun column => M.at' row column * inputVector.get column).sum
  else
    ((List.range Size).map fun column => M.at' row column * inputVector.get column).sum
      + ((List.range' Size (ColumnCount - Size)).map fun column => M.at' row column).sum

/-- Embedding of `grayscaleColorMatrix(amount)` (ColorMatrix.h lines 76-85). -/
def grayscaleColorMatrix (amount : ℚ) : ColorMatrix ℚ 3 3 :=
  let oneMinusAmount := clamp (1 - amount) 0 1
  ⟨[0.2126 + 0.7874 * oneMinusAmount, 0.7152 - 0.7152 * oneMinusAmount, 0.0722 - 0.0722 * oneMinusAmount,
    0.2126 - 0.2126 * oneMinusAmount, 0.7152 + 0.2848 * oneMinusAmount, 0.0722 - 0.0722 * oneMinusAmount,
    0.2126 - 0.2126 * oneMinusAmount, 0.7152 - 0.7152 * oneMinusAmount, 0.0722 + 0.9278 * oneMinusAmount]⟩

/-- Embedding of `sepiaColorMatrix(amount)` (ColorMatrix.h lines 87-96). -/
def sepiaColorMatrix (amount : ℚ) : ColorMatrix ℚ 3 3 :=
  let oneMinusAmount := clamp (1 - amount) 0 1
  ⟨[0.393 + 0.607 * oneMinusAmount, 0.769 - 0.769 * oneMinusAmount, 0.189 - 0.189 * oneMinusAmount,
    0.349 - 0.349 * oneMinusAmount, 0.686 + 0.314 * oneMinusAmount, 0.168 - 0.168 * oneMinusAmount,
    0.272 - 0.272 * oneMinusAmount, 0.534 - 0.534 * oneMinusAmount, 0.131 + 0.869 * oneMinusAmount]⟩

/-- Embedding of `saturationColorMatrix(amount)` (ColorMatrix.h lines 98-106). -/
def saturationColorMatrix (amount : ℚ) : ColorMatrix ℚ 3 3 :=
  ⟨[0.213 + 0.787 * amount, 0.715 - 0.715 * amount, 0.072 - 0.072 * amount,
    0.213 - 0.213 * amount, 0.715 + 0.285 * amount, 0.072 - 0.072 * amount,
    0.213 - 0.213 * amount, 0.715 - 0.715 * amount, 0.072 + 0.928 * amount]⟩

/-- Modelled from the spec: `deg2rad` (from wtf/MathExtras.h, external to the
snapshot) converts degrees to radians: `deg * pi / 180`. -/
noncomputable def deg2rad (deg : ℝ) : ℝ := deg * Real.pi / 180

/-- Embedding of `hueRotateColorMatrix(angleInDegrees)` (ColorMatrix.h lines
109-120), over `ℝ` since it uses `cos`/`sin` (the source notes it is not
constexpr for the same reason). -/
noncomputable def hueRotateColorMatrix (angleInDegrees : ℝ) : ColorMatrix ℝ 3 3 :=
  let cosHue := Real.cos (deg2rad angleInDegrees)
  let sinHue := Real.sin (deg2rad angleInDegrees)
  ⟨[0.213 + cosHue * 0.787 - sinHue * 0.213, 0.715 - cosHue * 0.715 - sinHue * 0.715, 0.072 - cosHue * 0.072 + sinHue * 0.928,
    0.213 - cosHue * 0.213 + sinHue * 0.143, 0.715 + cosHue * 0.285 + sinHue * 0.140, 0.072 - cosHue * 0.072 - sinHue * 0.283,
    0.213 - cosHue * 0.213 - sinHue * 0.787, 0.715 - cosHue * 0.715 + sinHue * 0.715, 0.072 + cosHue * 0.928 + sinHue * 0.072]⟩

/-- Embedding of the single-matrix base case of the variadic
`applyMatricesToColorComponents(components, matrix)`. -/
def applyMatricesToColorComponents {α : Type} [CommRing α]
    {ColumnCount RowCount Size : ℕ} (components : ColorComponents α Size)
    (matrix : ColorMatrix α ColumnCount RowCount) : ColorComponents α Size :=
  matrix.transformedColorComponents components

/-- Embedding of the recursive case of the variadic
`applyMatricesToColorComponents(components, matrix, matrices...)`, instantiated
at two matrices: recurse on `matrix.transformedColorComponents(components)`
with the remaining matrix. -/
def applyMatricesToColorComponents2 {α : Type} [CommRing α]
    {C1 R1 C2 R2 Size : ℕ} (components : ColorComponents α Size)
    (matrix : ColorMatrix α C1 R1) (matrix2 : ColorMatrix α C2 R2) :
    ColorComponents α Size :=
  applyMatricesToColorComponents (matrix.transformedColorComponents components) matrix2

end WebCore

namespace WebCore.WHLSL

/-- Embedding of `ScopedSetAdder<T>`'s fields: the added item and the
`m_isNewEntry` flag recorded at construction.  The referenced `HashSet<T>` is
modelled from the spec as a `Finset T` threaded explicitly through
construction and destruction. -/
structure ScopedSetAdder (T : Type) where
  m_item : T
  m_isNewEntry : Bool

/-- Embedding of the `ScopedSetAdder` constructor: `m_isNewEntry =
m_set.add(m_item)` (true iff the item was not yet in the set), returning the
constructed object together with the updated set. -/
def ScopedSetAdder.construct {T : Type} [DecidableEq T]
    (set : Finset T) (item : T) : ScopedSetAdder T × Finset T :=
  (⟨item, decide (item ∉ set)⟩, insert item set)

/-- Embedding of the `ScopedSetAdder` destructor: remove the item only when it
was newly added. -/
def ScopedSetAdder.destruct {T : Type} [DecidableEq T]
    (adder : ScopedSetAdder T) (set : Finset T) : Finset T :=
  if adder.m_isNewEntry then set.erase adder.m_item else set

/-- Embedding of `ScopedSetAdder::isNewEntry()`. -/
def ScopedSetAdder.isNewEntry {T : Type} (adder : ScopedSetAdder T) : Bool :=
  adder.m_isNewEntry

end WebCore.WHLSL

namespace WebCore

lemma list_getD_set_self {α : Type} (xs : List α) (j : ℕ) (x d : α) (h : j < xs.length) :
    (xs.set j x).getD j d = x := by
  induction xs generalizing j with
  | nil => simp at h
  | cons a as ih =>
    cases j with
    | zero => simp
    | succ n =>
      simp only [List.set_cons_succ, List.getD_cons_succ]
      exact ih n (by simpa using h)

lemma list_getD_set_ne {α : Type} (xs : List α) {i j : ℕ} (x d : α) (h : i ≠ j) :
    (xs.set j x).getD i d = xs.getD i d := by
  induction xs generalizing i j with
  | nil => simp
  | cons a as ih =>
    cases j with
    | zero =>
      cases i with
      | zero => exact absurd rfl h
      | succ m => simp
    | succ n =>
      cases i with
      | zero => simp
      | succ m =>
        simp only [List.set_cons_succ, List.getD_cons_succ]
        exact ih (fun hh => h (by rw [hh]))

lemma list_getD_replicate_zero {α : Type} [Zero α] (n i : ℕ) :
    (List.replicate n (0 : α)).getD i 0 = 0 := by
  induction n generalizing i with
  | zero => simp
  | succ m ih =>
    cases i with
    | zero => simp [List.replicate_succ]
    | succ k =>
      simp only [List.replicate_succ, List.getD_cons_succ]
      exact ih k

lemma ColorComponents.get_set_self {α : Type} [Zero α] {S : ℕ}
    (v : ColorComponents α S) (j : ℕ) (x : α) (h : j < v.components.length) :
    (v.set j x).get j = x :=
  list_getD_set_self v.components j x 0 h

lemma ColorComponents.get_set_ne {α : Type} [Zero α] {S : ℕ}
    (v : ColorComponents α S) {i j : ℕ} (x : α) (h : i ≠ j) :
    (v.set j x).get i = v.get i :=
  list_getD_set_ne v.components x 0 h

lemma ColorComponents.length_set {α : Type} {S : ℕ}
    (v : ColorComponents α S) (j : ℕ) (x : α) :
    (v.set j x).components.length = v.components.length :=
  List.length_set v.components j x

lemma ColorComponents.set_oob {α : Type} {S : ℕ}
    (v : ColorComponents α S) (j : ℕ) (x : α) (h : v.components.length ≤ j) :
    v.set j x = v := by
  show (⟨v.components.set j x⟩ : ColorComponents α S) = v
  rw [List.set_eq_of_length_le h]

lemma foldl_length_invariant {α : Type} {S : ℕ} {β : Type}
    (f : ColorComponents α S → β → ColorComponents α S)
    (hf : ∀ v b, (f v b).components.length = v.components.length)
    (l : List β) (v0 : ColorComponents α S) :
    (l.foldl f v0).components.length = v0.components.length := by
  induction l generalizing v0 with
  | nil => rfl
  | cons b bs ih => rw [List.foldl_cons, ih (f v0 b), hf v0 b]

lemma get_foldl_mulcol {α : Type} [CommRing α] {C R S : ℕ}
    (M : ColorMatrix α C R) (inp : ColorComponents α S) (l : List ℕ)
    (row i : ℕ) (v0 : ColorComponents α S) :
    ((l.foldl (fun result column =>
        result.set row (result.get row + M.at' row column * inp.get column)) v0)).get i
      = if i = row ∧ row < v0.components.length
        then v0.get row + ((l.map fun column => M.at' row column * inp.get column)).sum
        else v0.get i := by
  induction l generalizing v0 with
  | nil =>
    simp only [List.foldl_nil, List.map_nil, List.sum_nil, add_zero]
    split_ifs with h
    · rw [h.1]
    · rfl
  | cons c t ih =>
    rw [List.foldl_cons, ih]
    simp only [ColorComponents.length_set]
    by_cases hrow : row < v0.components.length
    · by_cases hi : i = row
      · subst hi
        have hset := ColorComponents.get_set_self v0 i
          (v0.get i + M.at' i c * inp.get c) hrow
        simp [hrow, hset, add_assoc]
      · simp only [hi, false_and, if_neg, ite_false]
        exact ColorComponents.get_set_ne v0 _ hi
    · rw [ColorComponents.set_oob v0 row _ (le_of_not_lt hrow)]
      simp [hrow]

lemma get_foldl_biascol {α : Type} [CommRing α] {C R S : ℕ}
    (M : ColorMatrix α C R) (l : List ℕ)
    (row i : ℕ) (v0 : ColorComponents α S) :
    ((l.foldl (fun result additionalColumn =>
        result.set row (result.get row + M.at' row additionalColumn)) v0)).get i
      = if i = row ∧ row < v0.components.length
        then v0.get row + ((l.map fun additionalColumn => M.at' row additionalColumn)).sum
        else v0.get i := by
  induction l generalizing v0 with
  | nil =>
    simp only [List.foldl_nil, List.map_nil, List.sum_nil, add_zero]
    split_ifs with h
    · rw [h.1]
    · rfl
  | cons c t ih =>
    rw [List.foldl_cons, ih]
    simp only [ColorComponents.length_set]
    by_cases hrow : row < v0.components.length
    · by_cases hi : i = row
      · subst hi
        have hset := ColorComponents.get_set_self v0 i
          (v0.get i + M.at' i c) hrow
        simp [hrow, hset, add_assoc]
      · simp only [hi, false_and, if_neg, ite_false]
        exact ColorComponents.get_set_ne v0 _ hi
    · rw [ColorComponents.set_oob v0 row _ (le_of_not_lt hrow)]
      simp [hrow]

lemma length_rowBody {α : Type} [CommRing α] {C R S : ℕ}
    (M : ColorMatrix α C R) (inp : ColorComponents α S) (row : ℕ)
    (v0 : ColorComponents α S) :
    ((if C ≤ S then
        (List.range C).foldl (fun result column =>
          result.set row (result.get row + M.at' row column * inp.get column)) v0
      else
        (List.range' S (C - S)).foldl (fun result additionalColumn =>
          result.set row (result.get row + M.at' row additionalColumn))
          ((List.range S).foldl (fun result column =>
            result.set row (result.get row + M.at' row column * inp.get column)) v0))).components.length
      = v0.components.length := by
  by_cases hCS : C ≤ S
  · rw [if_pos hCS]
    exact foldl_length_invariant _ (fun v b => ColorComponents.length_set v _ _) _ v0
  · rw [if_neg hCS]
    rw [foldl_length_invariant _ (fun v b => ColorComponents.length_set v _ _)]
    exact foldl_length_invariant _ (fun v b => ColorComponents.length_set v _ _) _ v0

lemma get_rowBody {α : Type} [CommRing α] {C R S : ℕ}
    (M : ColorMatrix α C R) (inp : ColorComponents α S) (row : ℕ)
    (v0 : ColorComponents α S) (hlen : v0.components.length = S) (i : ℕ) :
    ((if C ≤ S then
        (List.range C).foldl (fun result column =>
          result.set row (result.get row + M.at' row column * inp.get column)) v0
      else
        (List.range' S (C - S)).foldl (fun result additionalColumn =>
          result.set row (result.get row + M.at' row additionalColumn))
          ((List.range S).foldl (fun result column =>
            result.set row (result.get row + M.at' row column * inp.get column)) v0))).get i
      = if i = row ∧ row < S then v0.get i + M.rowValue inp row else v0.get i := by
  by_cases hCS : C ≤ S
  · rw [if_pos hCS, get_foldl_mulcol, hlen, ColorMatrix.rowValue, if_pos hCS]
    by_cases hi : i = row
    · subst hi; rfl
    · simp [hi]
  · rw [if_neg hCS, get_foldl_biascol]
    have hlen2 : ((List.range S).foldl (fun result column =>
        result.set row (result.get row + M.at' row column * inp.get column)) v0).components.length
        = S := by
      rw [foldl_length_invariant _ (fun v b => ColorComponents.length_set v _ _)]
      exact hlen
    simp only [hlen2, get_foldl_mulcol, hlen, ColorMatrix.rowValue, if_neg hCS]
    by_cases hi : i = row
    · subst hi
      by_cases hrow : i < S
      · simp [hrow, add_assoc]
      · simp [hrow]
    · simp [hi]

lemma get_foldl_rows {α : Type} [CommRing α] {C R S : ℕ}
    (M : ColorMatrix α C R) (inp : ColorComponents α S) (n s : ℕ)
    (v0 : ColorComponents α S) (hlen : v0.components.length = S) (i : ℕ) :
    ((List.range' s n).foldl (fun result row =>
        if C ≤ S then
          (List.range C).foldl (fun result column =>
            result.set row (result.get row + M.at' row column * inp.get column)) result
        else
          (List.range' S (C - S)).foldl (fun result additionalColumn =>
            result.set row (result.get row + M.at' row additionalColumn))
            ((List.range S).foldl (fun result column =>
              result.set row (result.get row + M.at' row column * inp.get column)) result)) v0).get i
      = if s ≤ i ∧ i < s + n ∧ i < S then v0.get i + M.rowValue inp i else v0.get i := by
  induction n generalizing s v0 with
  | zero =>
    rw [List.range'_zero, List.foldl_nil, if_neg (by omega)]
  | succ m ih =>
    rw [show List.range' s (m + 1) = s :: List.range' (s + 1) m from List.range'_succ s m 1,
      List.foldl_cons]
    have hlenb := length_rowBody M inp s v0
    rw [ih (s + 1) _ (hlenb.trans hlen), get_rowBody M inp s v0 hlen i]
    by_cases hiS : i < S
    · by_cases his : i = s
      · subst his
        rw [if_neg (by omega), if_pos ⟨rfl, hiS⟩, if_pos (by omega)]
      · by_cases hrange : s + 1 ≤ i ∧ i < s + 1 + m
        · rw [if_pos ⟨hrange.1, hrange.2, hiS⟩, if_neg (by simp [his]),
            if_pos (by omega)]
        · rw [if_neg (by omega), if_neg (by simp [his]), if_neg (by omega)]
    · rw [if_neg (by omega), if_neg (by omega), if_neg (by omega)]

lemma get_foldl_pass {α : Type} [CommRing α] {S : ℕ}
    (inp : ColorComponents α S) (n s : ℕ)
    (v0 : ColorComponents α S) (i : ℕ) :
    ((List.range' s n).foldl (fun result additionalRow =>
        result.set additionalRow (inp.get additionalRow)) v0).get i
      = if s ≤ i ∧ i < s + n ∧ i < v0.components.length then inp.get i else v0.get i := by
  induction n generalizing s v0 with
  | zero =>
    rw [List.range'_zero, List.foldl_nil, if_neg (by omega)]
  | succ m ih =>
    rw [show List.range' s (m + 1) = s :: List.range' (s + 1) m from List.range'_succ s m 1,
      List.foldl_cons, ih]
    simp only [ColorComponents.length_set]
    by_cases hiL : i < v0.components.length
    · by_cases his : i = s
      · subst his
        rw [if_neg (by omega), ColorComponents.get_set_self v0 i _ hiL,
          if_pos (by omega)]
      · by_cases hrange : s + 1 ≤ i ∧ i < s + 1 + m
        · rw [if_pos ⟨hrange.1, hrange.2, hiL⟩, if_pos (by omega)]
        · rw [if_neg (by omega), ColorComponents.get_set_ne v0 _ his,
            if_neg (by omega)]
    · by_cases his : i = s
      · subst his
        rw [ColorComponents.set_oob v0 i _ (le_of_not_lt hiL),
          if_neg (by omega), if_neg (by omega)]
      · rw [if_neg (by omega), ColorComponents.get_set_ne v0 _ his,
          if_neg (by omega)]

theorem get_transformedColorComponents {α : Type} [CommRing α] {C R S : ℕ}
    (M : ColorMatrix α C R) (v : ColorComponents α S) (i : ℕ) (hi : i < S) :
    (M.transformedColorComponents v).get i
      = if i < R then M.rowValue v i else v.get i := by
  have hg0 : ((⟨List.replicate S 0⟩ : ColorComponents α S)).get i = 0 :=
    list_getD_replicate_zero S i
  have hlen0 : ((⟨List.replicate S 0⟩ : ColorComponents α S)).components.length = S := by
    simp [ColorComponents.components]
  simp only [ColorMatrix.transformedColorComponents]
  rw [List.range_eq_range' R]
  by_cases hRS : R < S
  · rw [if_pos hRS, get_foldl_pass]
    have hlenrows : (((List.range' 0 R).foldl (fun result row =>
        if C ≤ S then
          (List.range C).foldl (fun result column =>
            result.set row (result.get row + M.at' row column * v.get column)) result
        else
          (List.range' S (C - S)).foldl (fun result additionalColumn =>
            result.set row (result.get row + M.at' row additionalColumn))
            ((List.range S).foldl (fun result column =>
              result.set row (result.get row + M.at' row column * v.get column)) result))
        (⟨List.replicate S 0⟩ : ColorComponents α S))).components.length = S := by
      rw [foldl_length_invariant _ (fun st row => length_rowBody M v row st)]
      exact hlen0
    simp only [hlenrows]
    rw [get_foldl_rows M v R 0 _ hlen0 i]
    by_cases hiR : i < R
    · rw [if_neg (by omega), if_pos (by omega : 0 ≤ i ∧ i < 0 + R ∧ i < S), hg0,
        zero_add, if_pos hiR]
    · rw [if_pos (by omega : R ≤ i ∧ i < R + (S - R) ∧ i < S), if_neg hiR]
  · rw [if_neg hRS, get_foldl_rows M v R 0 _ hlen0 i,
      if_pos (by omega : 0 ≤ i ∧ i < 0 + R ∧ i < S), hg0, zero_add,
      if_pos (by omega)]

lemma sum_map_range {α : Type} [AddCommMonoid α] (f : ℕ → α) (n : ℕ) :
    ((List.range n).map f).sum = ∑ c ∈ Finset.range n, f c := by
  induction n with
  | zero => simp
  | succ m ih =>
    rw [List.range_succ, List.map_append, List.sum_append, Finset.sum_range_succ, ih]
    simp

lemma sum_map_range' {α : Type} [AddCommMonoid α] (f : ℕ → α) (s n : ℕ) :
    ((List.range' s n).map f).sum = ∑ c ∈ Finset.Ico s (s + n), f c := by
  induction n generalizing s with
  | zero => simp
  | succ m ih =>
    rw [List.range'_succ s m 1, List.map_cons, List.sum_cons, ih (s + 1),
      Finset.sum_eq_sum_Ico_succ_bot (by omega : s < s + (m + 1))]
    have h : s + 1 + m = s + (m + 1) := by omega
    rw [h]

/-- C3: for an R-by-C matrix with C greater than the vector size S, each output
row r in [0, R) is the dot product of the first S columns with the input plus
the plain sum of the coefficients of the remaining columns (each extra column
multiplies an implicit constant 1); in particular a 1-by-2 matrix [a, b]
applied to the 1-element vector [x] yields a*x + b. -/
theorem transformedColorComponents_affine_extension :
    (∀ (α : Type) [CommRing α] (C R S : ℕ) (M : ColorMatrix α C R)
        (v : ColorComponents α S) (r : ℕ), S < C → R ≤ S → r < R →
        (M.transformedColorComponents v).get r
          = (∑ c ∈ Finset.range S, M.at' r c * v.get c) + ∑ c ∈ Finset.Ico S C, M.at' r c)
    ∧ ∀ a b x : ℚ,
        ((ColorMatrix.mk [a, b] : ColorMatrix ℚ 2 1).transformedColorComponents
          (ColorComponents.mk [x] : ColorComponents ℚ 1)).get 0 = a * x + b := by
  have gen : ∀ (α : Type) [CommRing α] (C R S : ℕ) (M : ColorMatrix α C R)
      (v : ColorComponents α S) (r : ℕ), S < C → R ≤ S → r < R →
      (M.transformedColorComponents v).get r
        = (∑ c ∈ Finset.range S, M.at' r c * v.get c) + ∑ c ∈ Finset.Ico S C, M.at' r c := by
    intro α _ C R S M v r hSC hRS hr
    rw [get_transformedColorComponents M v r (by omega), if_pos hr,
      ColorMatrix.rowValue, if_neg (by omega), sum_map_range, sum_map_range',
      Nat.add_sub_cancel' (le_of_lt hSC)]
  refine ⟨gen, fun a b x => ?_⟩
  rw [gen ℚ 2 1 1 _ _ 0 (by omega) (by omega) (by omega)]
  rw [Finset.sum_range_succ, Finset.sum_eq_sum_Ico_succ_bot (by omega : (1:ℕ) < 2)]
  simp [ColorMatrix.at', ColorComponents.get]

/-- C3 witness: the affine-extension theorem applied to the concrete 1-by-2
matrix [2, 3] and the vector [5]. -/
theorem transformedColorComponents_affine_extension_witness :
    ((ColorMatrix.mk [2, 3] : ColorMatrix ℚ 2 1).transformedColorComponents
        (ColorComponents.mk [5] : ColorComponents ℚ 1)).get 0
      = (2 : ℚ) * 5 + 3 :=
  transformedColorComponents_affine_extension.2 2 3 5

/-- C4: for an R-by-C matrix with C at most the vector size S, each output row
r in [0, R) is the standard matrix-vector product over the first C input
components. -/
theorem transformedColorComponents_standard_product {α : Type} [CommRing α]
    {C R S : ℕ} (hCS : C ≤ S) (hRS : R ≤ S) (M : ColorMatrix α C R)
    (v : ColorComponents α S) (r : ℕ) (hr : r < R) :
    (M.transformedColorComponents v).get r
      = ∑ c ∈ Finset.range C, M.at' r c * v.get c := by
  rw [get_transformedColorComponents M v r (by omega), if_pos hr,
    ColorMatrix.rowValue, if_pos hCS, sum_map_range]

/-- C4 witness: the standard-product theorem applied to the 2-by-2 matrix
[1, 2; 3, 4] and the vector [5, 6]. -/
theorem transformedColorComponents_standard_product_witness :
    ((2 ≤ 2 ∧ 2 ≤ 2 ∧ 0 < 2) ∧
      ((ColorMatrix.mk [1, 2, 3, 4] : ColorMatrix ℚ 2 2).transformedColorComponents
          (ColorComponents.mk [5, 6] : ColorComponents ℚ 2)).get 0
        = ∑ c ∈ Finset.range 2, (ColorMatrix.mk [1, 2, 3, 4] : ColorMatrix ℚ 2 2).at' 0 c
            * (ColorComponents.mk [5, 6] : ColorComponents ℚ 2).get c) :=
  ⟨⟨le_refl 2, le_refl 2, by omega⟩,
    transformedColorComponents_standard_product (le_refl 2) (le_refl 2) _ _ 0 (by omega)⟩

/-- C5: for an R-by-C matrix with R less than the vector size S, every
component with index in [R, S) passes through unchanged. -/
theorem transformedColorComponents_passthrough {α : Type} [CommRing α]
    {C R S : ℕ} (_hRS : R < S) (M : ColorMatrix α C R)
    (v : ColorComponents α S) (i : ℕ) (hRi : R ≤ i) (hiS : i < S) :
    (M.transformedColorComponents v).get i = v.get i := by
  rw [get_transformedColorComponents M v i hiS, if_neg (by omega)]

/-- C5 witness: the passthrough theorem applied to the 1-by-1 matrix [7] and
the vector [5, 6] at index 1. -/
theorem transformedColorComponents_passthrough_witness :
    ((1 < 2 ∧ 1 ≤ 1 ∧ 1 < 2) ∧
      ((ColorMatrix.mk [7] : ColorMatrix ℚ 1 1).transformedColorComponents
          (ColorComponents.mk [5, 6] : ColorComponents ℚ 2)).get 1
        = (ColorComponents.mk [5, 6] : ColorComponents ℚ 2).get 1) :=
  ⟨⟨by omega, le_refl 1, by omega⟩,
    transformedColorComponents_passthrough (by omega) _ _ 1 (le_refl 1) (by omega)⟩

/-- C6: applying two matrices through the variadic
applyMatricesToColorComponents is exactly the nested application
matrix2.transformedColorComponents(matrix1.transformedColorComponents(v)). -/
theorem applyMatrices_pair_eq_nested {α : Type} [CommRing α]
    {C1 R1 C2 R2 Size : ℕ} (_hR1 : R1 ≤ Size) (_hR2 : R2 ≤ Size)
    (v : ColorComponents α Size) (M1 : ColorMatrix α C1 R1) (M2 : ColorMatrix α C2 R2) :
    applyMatricesToColorComponents2 v M1 M2
      = M2.transformedColorComponents (M1.transformedColorComponents v) := rfl

/-- C6 witness: the composition theorem applied to the 1-by-1 matrices [2] and
[3] and the vector [4]. -/
theorem applyMatrices_pair_eq_nested_witness :
    ((1 ≤ 1 ∧ 1 ≤ 1) ∧
      applyMatricesToColorComponents2 (ColorComponents.mk [4] : ColorComponents ℚ 1)
          (ColorMatrix.mk [2] : ColorMatrix ℚ 1 1) (ColorMatrix.mk [3] : ColorMatrix ℚ 1 1)
        = (ColorMatrix.mk [3] : ColorMatrix ℚ 1 1).transformedColorComponents
            ((ColorMatrix.mk [2] : ColorMatrix ℚ 1 1).transformedColorComponents
              (ColorComponents.mk [4] : ColorComponents ℚ 1))) :=
  ⟨⟨le_refl 1, le_refl 1⟩, applyMatrices_pair_eq_nested (le_refl 1) (le_refl 1) _ _ _⟩

lemma clamp_one_sub_clamp (a : ℚ) :
    clamp (1 - clamp a 0 1) 0 1 = clamp (1 - a) 0 1 := by
  unfold clamp
  split_ifs <;> linarith

/-- C1 counterexample: the claim as stated is false on the code.  At amount
0.0 the grayscale factory yields the identity matrix, not the luma matrix
(its (0,0) coefficient is 0.2126 + 0.7874 = 1, not 0.2126), so the claimed
pair of boundary values does not hold. -/
theorem grayscale_boundary_claim_false :
    ¬(grayscaleColorMatrix 0
        = ⟨[0.2126, 0.7152, 0.0722, 0.2126, 0.7152, 0.0722, 0.2126, 0.7152, 0.0722]⟩
      ∧ grayscaleColorMatrix 1 = ⟨[1, 0, 0, 0, 1, 0, 0, 0, 1]⟩) := by
  intro h
  have h1 := h.1
  norm_num [grayscaleColorMatrix, clamp] at h1

/-- C1 amended: the boundaries are the other way around:
grayscaleColorMatrix(1.0) is the luma matrix whose every row is
{0.2126, 0.7152, 0.0722}, and grayscaleColorMatrix(0.0) is the 3x3 identity
matrix. -/
theorem grayscale_boundary_amended :
    grayscaleColorMatrix 1
        = ⟨[0.2126, 0.7152, 0.0722, 0.2126, 0.7152, 0.0722, 0.2126, 0.7152, 0.0722]⟩
      ∧ grayscaleColorMatrix 0 = ⟨[1, 0, 0, 0, 1, 0, 0, 0, 1]⟩ := by
  constructor <;> norm_num [grayscaleColorMatrix, clamp]

/-- C2 counterexample: saturationColorMatrix(0.0) is not equal, under the
equality operator, to grayscaleColorMatrix(0.0): the former is the constant
luma matrix with rows {0.213, 0.715, 0.072} while the latter is the identity
matrix. -/
theorem saturation_grayscale_claim_false :
    ColorMatrix.beq (saturationColorMatrix 0) (grayscaleColorMatrix 0) = false := by
  norm_num [ColorMatrix.beq, saturationColorMatrix, grayscaleColorMatrix, clamp,
    ColorMatrix.at', List.range_succ]

/-- C2 amended: it is saturationColorMatrix(1.0) that returns a matrix equal
(under the matrix equality operator) to grayscaleColorMatrix(0.0); both are
the 3x3 identity matrix. -/
theorem saturation_one_eq_grayscale_zero :
    ColorMatrix.beq (saturationColorMatrix 1) (grayscaleColorMatrix 0) = true := by
  norm_num [ColorMatrix.beq, saturationColorMatrix, grayscaleColorMatrix, clamp,
    ColorMatrix.at', List.range_succ]

/-- C7: the equality operator returns true iff every coefficient of the two
equally-dimensioned matrices matches exactly; a single differing coefficient
therefore makes the result false. -/
theorem matrix_beq_iff_coefficients {α : Type} [Zero α] [DecidableEq α] {C R : ℕ}
    (a b : ColorMatrix α C R) :
    ColorMatrix.beq a b = true
      ↔ ∀ row < R, ∀ column < C, a.at' row column = b.at' row column := by
  simp [ColorMatrix.beq, List.all_eq_true, List.mem_range]

/-- C7 witness: two independently constructed 1-by-2 matrices with identical
coefficients compare equal. -/
theorem matrix_beq_iff_coefficients_witness :
    ColorMatrix.beq (ColorMatrix.mk [1, 2] : ColorMatrix ℚ 2 1)
      (ColorMatrix.mk [1, 2] : ColorMatrix ℚ 2 1) = true :=
  (matrix_beq_iff_coefficients _ _).mpr (fun _ _ _ _ => rfl)

/-- C8: hueRotateColorMatrix(0.0) is the 3x3 identity matrix: at angle 0 the
cosine is 1 and the sine is 0, collapsing every blended coefficient to the
identity terms. -/
theorem hueRotate_zero_identity :
    hueRotateColorMatrix 0 = ⟨[1, 0, 0, 0, 1, 0, 0, 0, 1]⟩ := by
  simp only [hueRotateColorMatrix, deg2rad]
  norm_num [Real.cos_zero, Real.sin_zero]

/-- C9: both clamping factories are insensitive to amounts outside [0, 1]:
grayscaleColorMatrix and sepiaColorMatrix agree at amount and at
clamp(amount, 0, 1), because each clamps 1 - amount into [0, 1]. -/
theorem factories_clamp_amount (amount : ℚ) :
    grayscaleColorMatrix amount = grayscaleColorMatrix (clamp amount 0 1)
      ∧ sepiaColorMatrix amount = sepiaColorMatrix (clamp amount 0 1) := by
  constructor
  · simp only [grayscaleColorMatrix]
    rw [clamp_one_sub_clamp]
  · simp only [sepiaColorMatrix]
    rw [clamp_one_sub_clamp]

/-- C9 witness: the clamping theorem applied at the out-of-range amount 2. -/
theorem factories_clamp_amount_witness :
    grayscaleColorMatrix 2 = grayscaleColorMatrix (clamp 2 0 1)
      ∧ sepiaColorMatrix 2 = sepiaColorMatrix (clamp 2 0 1) :=
  factories_clamp_amount 2

end WebCore

namespace WebCore.WHLSL

/-- C10: constructing a ScopedSetAdder over a set s and item x puts x into the
set, isNewEntry reports whether x was absent before, and destruction restores
the set exactly to its pre-construction contents. -/
theorem scopedSetAdder_roundtrip {T : Type} [DecidableEq T] (s : Finset T) (x : T) :
    x ∈ (ScopedSetAdder.construct s x).2
    ∧ ((ScopedSetAdder.construct s x).1.isNewEntry = true ↔ x ∉ s)
    ∧ ScopedSetAdder.destruct (ScopedSetAdder.construct s x).1
        (ScopedSetAdder.construct s x).2 = s := by
  refine ⟨Finset.mem_insert_self x s, ?_, ?_⟩
  · simp [ScopedSetAdder.construct, ScopedSetAdder.isNewEntry]
  · by_cases h : x ∈ s
    · simp [ScopedSetAdder.construct, ScopedSetAdder.destruct, h,
        Finset.insert_eq_self.mpr h]
    · simp [ScopedSetAdder.construct, ScopedSetAdder.destruct, h,
        Finset.erase_insert h]

/-- C10 witness: the roundtrip theorem applied to the set \x7b1, 2\x7d and the
fresh item 3. -/
theorem scopedSetAdder_roundtrip_witness :
    3 ∈ (ScopedSetAdder.construct ({1, 2} : Finset ℕ) 3).2
    ∧ ((ScopedSetAdder.construct ({1, 2} : Finset ℕ) 3).1.isNewEntry = true
        ↔ 3 ∉ ({1, 2} : Finset ℕ))
    ∧ ScopedSetAdder.destruct (ScopedSetAdder.construct ({1, 2} : Finset ℕ) 3).1
        (ScopedSetAdder.construct ({1, 2} : Finset ℕ) 3).2 = {1, 2} :=
  scopedSetAdder_roundtrip {1, 2} 3

end WebCore.WHLSL
